import Mathlib

/-!
Verification of the HHL pipeline core (qiskit/aqua/algorithms/single_sample/hhl/hhl.py)
against its design specification.

Complex matrix and vector entries are modelled exactly as Gaussian rationals
(`GQ`): real and imaginary part are rational numbers.  The numpy operations
used by the source (conjugation, transposition, block assignment, `allclose`
with its default tolerances) are all exact or tolerance-explicit, so this
model captures the branch structure of the source faithfully; transcendental
numpy functions (`norm`, `angle`, `log2`, `exp`) appearing in the result
rescaling are abstracted as an interpretation record `RealOps`, and the
claims about that code are proved for every interpretation.
-/

/-- Exact model of a numpy complex scalar: rational real and imaginary part. -/
structure GQ where
  re : ℚ
  im : ℚ
  deriving DecidableEq, Repr

instance : Zero GQ := ⟨⟨0, 0⟩⟩

instance : One GQ := ⟨⟨1, 0⟩⟩

instance : Add GQ := ⟨fun a b => ⟨a.re + b.re, a.im + b.im⟩⟩

instance : Sub GQ := ⟨fun a b => ⟨a.re - b.re, a.im - b.im⟩⟩

instance : Mul GQ := ⟨fun a b => ⟨a.re * b.re - a.im * b.im, a.re * b.im + a.im * b.re⟩⟩

/-- Complex conjugation, `np.conj`. -/
def GQ.conj (z : GQ) : GQ := ⟨z.re, -z.im⟩

/-- Embedding of a real scalar into the complex scalars. -/
def GQ.ofQ (q : ℚ) : GQ := ⟨q, 0⟩

/-- Division of a complex scalar by a real scalar (numpy `vec / norm`). -/
def GQ.divR (z : GQ) (q : ℚ) : GQ := ⟨z.re / q, z.im / q⟩

/-- numpy default absolute tolerance `atol = 1e-08` of `np.allclose`. -/
def atolQ : ℚ := 1 / 100000000

/-- numpy default relative tolerance `rtol = 1e-05` of `np.allclose`. -/
def rtolQ : ℚ := 1 / 100000

/-- Elementwise test of `np.isclose a b`, i.e. `|a - b| <= atol + rtol * |b|`,
decided exactly over the rationals: with `dsq = |a-b|^2` and `bsq = |b|^2` the
condition is equivalent to `c <= 0 ∨ c^2 <= 4 * atol^2 * rtol^2 * bsq` where
`c = dsq - atol^2 - rtol^2 * bsq` (obtained by squaring both sides twice). -/
def closeQ (a b : GQ) : Bool :=
  let dsq := (a.re - b.re) ^ 2 + (a.im - b.im) ^ 2
  let bsq := b.re ^ 2 + b.im ^ 2
  let c := dsq - atolQ ^ 2 - rtolQ ^ 2 * bsq
  if c ≤ 0 then true else decide (c ^ 2 ≤ 4 * atolQ ^ 2 * rtolQ ^ 2 * bsq)

/-- `np.allclose(matrix, np.matrix(matrix).H)` (hhl.py lines 165 and 196):
every entry of the `n × n` matrix is `np.isclose` to the conjugate of the
transposed entry, the latter being the reference argument of `isclose`. -/
def hermAllClose (n : ℕ) (A : ℕ → ℕ → GQ) : Bool :=
  (List.range n).all fun i =>
    (List.range n).all fun j => closeQ (A i j) (GQ.conj (A j i))

/-- Fuel-driven kernel-reducible power-of-two test: `1` is a power of two,
an even number is one when its half is, everything else is not. -/
def isPow2Aux : ℕ → ℕ → Bool
  | _, 0 => false
  | 0, _ => false
  | _+1, 1 => true
  | fuel+1, n+2 => (n+2) % 2 == 0 && isPow2Aux fuel ((n+2)/2)

/-- `np.log2(n) % 1 == 0` (hhl.py line 166) for a positive integer dimension:
`n` is an exact power of two. -/
def isPow2 (n : ℕ) : Bool := isPow2Aux n n

/-- Fuel-driven floor of the base-two logarithm (`log2FloorAux n n` is
`floor(log2 n)` for `n ≥ 1`). -/
def log2FloorAux : ℕ → ℕ → ℕ
  | 0, _ => 0
  | fuel+1, n => if n ≤ 1 then 0 else log2FloorAux fuel (n / 2) + 1

/-- `int(np.ceil(np.log2(n)))` (hhl.py line 187) for a positive integer `n`:
the least `k` with `n ≤ 2 ^ k`.  (For `n = 0` numpy raises an OverflowError;
dimension-zero problems are outside the modelled domain and the value `0`
here is arbitrary.) -/
def natCeilLog2 (n : ℕ) : ℕ :=
  if n ≤ 1 then 0 else log2FloorAux (n - 1) (n - 1) + 1

/-- The matrix built by the `auto_hermitian` branch (hhl.py lines 173-177):
a `2r × 2r` matrix with zero diagonal blocks, `A` as the top-right block
(line 175) and `Aᴴ` as the bottom-left block (line 176).  Entries outside
the `2r × 2r` range are `0`. -/
def hermExpand (r : ℕ) (A : ℕ → ℕ → GQ) : ℕ → ℕ → GQ := fun i j =>
  if i < r ∧ r ≤ j ∧ j < 2 * r then A i (j - r)
  else if r ≤ i ∧ i < 2 * r ∧ j < r then GQ.conj (A j (i - r))
  else 0

/-- The vector built by the `auto_hermitian` branch (hhl.py lines 178-182):
`concat(conj(b), b)`, stored in a buffer explicitly converted to
`dtype=complex` (line 179), so entries are preserved exactly. -/
def hermExpandVec (r : ℕ) (b : ℕ → GQ) : ℕ → GQ := fun i =>
  if i < r then GQ.conj (b i)
  else if i < 2 * r then b (i - r)
  else 0

/-- The `auto_resize` branch (hhl.py lines 186-194) applied to a current
matrix/vector of dimension `cur`: the matrix becomes the top-left block of
an identity matrix of the next power-of-two size (the identity buffer is
converted to `dtype=complex` on line 189, so matrix entries are exact);
the vector is written into `np.zeros((1, 2 ** next_higher))` (line 192)
WITHOUT a `dtype=complex` conversion, i.e. a float64 buffer, so numpy
discards the imaginary part of every copied entry (ComplexWarning). -/
def resizeExpand (cur : ℕ) (A : ℕ → ℕ → GQ) (b : ℕ → GQ) :
    ℕ × (ℕ → ℕ → GQ) × (ℕ → GQ) :=
  let next := 2 ^ natCeilLog2 cur
  (next,
   fun i j =>
     if i < cur ∧ j < cur then A i j
     else if i < next ∧ j < next then (if i = j then 1 else 0)
     else 0,
   fun i => if i < cur then ⟨(b i).re, 0⟩ else 0)

/-- The two conditional expansion steps of `HHL.init_params` (hhl.py lines
165-194).  Both branch conditions are computed from the ORIGINAL matrix
(lines 165-166) before any expansion runs, exactly as in the source.
Returns the final dimension, matrix and vector. -/
def expandStep (r : ℕ) (A : ℕ → ℕ → GQ) (b : ℕ → GQ) (autoH autoR : Bool) :
    ℕ × (ℕ → ℕ → GQ) × (ℕ → GQ) :=
  let isH := hermAllClose r A
  let isP := isPow2 r
  let p1 : ℕ × (ℕ → ℕ → GQ) × (ℕ → GQ) :=
    if autoH && !isH then (2 * r, hermExpand r A, hermExpandVec r b)
    else (r, A, b)
  if autoR && !isP then resizeExpand p1.1 p1.2.1 p1.2.2 else p1

/-- The error taxonomy of `configure` (spec section 7); in the source all
four are `ValueError`s raised with distinct messages (hhl.py lines 154-158
and 196-199). -/
inductive ConfigError where
  | DimensionMismatch
  | NonSquareMatrix
  | NotHermitian
  | InvalidDimension
  deriving DecidableEq, Repr

/-- The validated problem produced by `HHL.init_params`: final dimension,
matrix, vector, and the original dimension `orig_size = len(vector)`
recorded before any expansion (hhl.py line 163). -/
structure Configured where
  dim : ℕ
  matrix : ℕ → ℕ → GQ
  vector : ℕ → GQ
  origSize : ℕ

/-- Shallow embedding of the preprocessing part of `HHL.init_params`
(hhl.py lines 154-199): the two input validations, the two conditional
expansions, and the two re-validations, in source order.  `r`/`c` are the
matrix shape, `m` the vector length. -/
def initParams (r c : ℕ) (A : ℕ → ℕ → GQ) (m : ℕ) (b : ℕ → GQ)
    (autoH autoR : Bool) : Except ConfigError Configured :=
  if r ≠ m then Except.error ConfigError.DimensionMismatch
  else if r ≠ c then Except.error ConfigError.NonSquareMatrix
  else
    let e := expandStep r A b autoH autoR
    if hermAllClose e.1 e.2.1 then
      if isPow2 e.1 then Except.ok ⟨e.1, e.2.1, e.2.2, m⟩
      else Except.error ConfigError.InvalidDimension
    else Except.error ConfigError.NotHermitian

/-- Whether a configuration attempt succeeded (extraction helper). -/
def cfgIsOk (x : Except ConfigError Configured) : Bool :=
  match x with
  | Except.ok _ => true
  | Except.error _ => false

/-- The final dimension of a successful configuration, `0` on failure
(extraction helper). -/
def cfgDim (x : Except ConfigError Configured) : ℕ :=
  match x with
  | Except.ok cfg => cfg.dim
  | Except.error _ => 0

/-- The recorded original dimension of a successful configuration, `0` on
failure (extraction helper). -/
def cfgOrig (x : Except ConfigError Configured) : ℕ :=
  match x with
  | Except.ok cfg => cfg.origSize
  | Except.error _ => 0

/-- A matrix entry of a successful configuration, `0` on failure
(extraction helper). -/
def cfgMat (x : Except ConfigError Configured) (i j : ℕ) : GQ :=
  match x with
  | Except.ok cfg => cfg.matrix i j
  | Except.error _ => 0

/-- A vector entry of a successful configuration, `0` on failure
(extraction helper). -/
def cfgVec (x : Except ConfigError Configured) (i : ℕ) : GQ :=
  match x with
  | Except.ok cfg => cfg.vector i
  | Except.error _ => 0

/-- Interpretation of the transcendental numpy functions used by the result
rescaling (`np.linalg.norm`, `np.angle`, `np.log2`, `np.exp(-1j*_)`).  The
claims about `_hhl_results` and `_statevector_simulation` are proved for
every interpretation, so nothing depends on a particular numeric model of
these functions. -/
structure RealOps where
  normOp : List GQ → ℚ
  angleOp : GQ → ℚ
  log2Op : ℕ → ℚ
  expNegI : ℚ → GQ

/-- Row `i` of `matrix.dot(res_vec)` for the matrix and vector truncated to
dimension `d` (hhl.py line 370 together with `_resize_matrix`). -/
def dotRow (d : ℕ) (A : ℕ → ℕ → GQ) (v : ℕ → GQ) (i : ℕ) : GQ :=
  ((List.range d).map fun j => A i j * v j).sum

/-- `self._resize_vector(v)`, i.e. `v[:d]` (hhl.py lines 274-275), for a
vector given as an entry function. -/
def resizeVec (d : ℕ) (v : ℕ → GQ) : List GQ := (List.range d).map v

/-- Shallow embedding of `HHL._hhl_results` (hhl.py lines 362-376): truncate
the decoded vector, the input vector and the matrix to the original
dimension, compute `tmp_vec = matrix.dot(res_vec)`,
`f1 = norm(in_vec)/norm(tmp_vec)`,
`f2 = sum(angle(in_vec*tmp_vec.conj()-1+1))/log2(matrix.shape[0])`
(the `-1+1` term kept verbatim from line 375), and return
`f1*res_vec*exp(-1j*f2)`. -/
def hhlResults (ops : RealOps) (d : ℕ) (A : ℕ → ℕ → GQ)
    (bvec vec : ℕ → GQ) : List GQ :=
  let res_vec := resizeVec d vec
  let in_vec := resizeVec d bvec
  let tmp_vec := (List.range d).map (dotRow d A vec)
  let f1 := ops.normOp in_vec / ops.normOp tmp_vec
  let f2 := ((in_vec.zip tmp_vec).map fun p =>
    ops.angleOp (p.1 * GQ.conj p.2 - 1 + 1)).sum / ops.log2Op d
  res_vec.map fun z => GQ.ofQ f1 * z * ops.expNegI f2

/-- The rescaling formula exactly as displayed in the specification
(section 4.3, "Shared rescaling"): `probe = matrix · decoded_vector`,
`f1 = norm(vector)/norm(probe)`,
`f2 = sum_i angle(vector_i · conj(probe_i) - 1 + 1) / log2(matrix_dimension)`,
`solution = f1 · decoded_vector · exp(-i · f2)`, with matrix, vector and
decoded vector truncated to the original dimension `d`. -/
def specRescale (ops : RealOps) (d : ℕ) (A : ℕ → ℕ → GQ)
    (bvec vec : ℕ → GQ) : List GQ :=
  (List.range d).map fun i =>
    GQ.ofQ (ops.normOp ((List.range d).map bvec) /
        ops.normOp ((List.range d).map (dotRow d A vec)))
      * vec i
      * ops.expNegI
          ((((List.range d).map fun k =>
              ops.angleOp (bvec k * GQ.conj (dotRow d A vec k) - 1 + 1)).sum) /
            ops.log2Op d)

/-- Shallow embedding of `HHL._statevector_simulation` (hhl.py lines
282-295) from the decoded vector onward: `probability_result` is
`np.real(resize(vec).dot(resize(vec).conj()))` computed from the decoded
vector BEFORE normalization (line 293), then the full decoded vector of
length `n = 2^num_q` is divided by its norm (line 294) and handed to
`_hhl_results` (line 295). -/
def statevectorSimulation (ops : RealOps) (n d : ℕ) (A : ℕ → ℕ → GQ)
    (bvec vec : ℕ → GQ) : ℚ × List GQ :=
  let prob := (((List.range d).map fun i => vec i * GQ.conj (vec i)).sum).re
  let nrm := ops.normOp (resizeVec n vec)
  let vec2 := fun i => (vec i).divR nrm
  (prob, hhlResults ops d A bvec vec2)

/-- One step of the per-basis count partition of `HHL._state_tomography`
(hhl.py lines 318-323): a count goes to the success total when the first
character of its key (the ancilla bit) is `'1'`, and to the failure total
otherwise.  Keys are modelled as character lists; the (unreachable) empty
key defaults to the failure branch. -/
def tomoStep (sf : ℕ × ℕ) (kv : List Char × ℕ) : ℕ × ℕ :=
  if kv.1.headD ' ' = '1' then (sf.1 + kv.2, sf.2) else (sf.1, sf.2 + kv.2)

/-- The `(s, f)` totals accumulated over a measurement count table
(hhl.py lines 318-323). -/
def tomoPartition (counts : List (List Char × ℕ)) : ℕ × ℕ :=
  counts.foldl tomoStep (0, 0)

/-- Python `str.split(sep)` for a single separator character, on keys
modelled as character lists. -/
def splitOnChar (sep : Char) : List Char → List (List Char)
  | [] => [[]]
  | c :: cs =>
    let r := splitOnChar sep cs
    if c = sep then [] :: r else (c :: r.headD []) :: r.tail

/-- Header metadata of one experiment record as read and rewritten by
`HHL._tomo_postselect` (hhl.py lines 344-349): classical register sizes,
classical bit labels, number of memory slots. -/
structure ExpHeader where
  creg_sizes : List (List Char × ℕ)
  clbit_labels : List (List Char × ℕ)
  memory_slots : ℕ
  deriving DecidableEq, Repr

/-- One experiment record: header metadata plus its counts dictionary
(keys are space-separated register bitstrings, modelled as character
lists). -/
structure ExpResult where
  header : ExpHeader
  counts : List (List Char × ℕ)
  deriving DecidableEq, Repr

/-- The per-entry postselection of hhl.py lines 351-354: split the key on
the space, keep the entry when the first register (the ancilla bit) reads
`'1'`, and re-key it by the second register (the io bitstring). -/
def succEntry (kv : List Char × ℕ) : Option (List Char × ℕ) :=
  let reg_bits := splitOnChar ' ' kv.1
  if reg_bits.headD [] = ['1'] then some (reg_bits.getD 1 [], kv.2) else none

/-- The new experiment record built by one iteration of
`HHL._tomo_postselect` (hhl.py lines 339-358): the classical register
metadata keeps only the first register (`creg_sizes[0]`), drops the last
classical bit label (`clbit_labels[0:-1]`) and one memory slot, and the
counts keep only the success-branch entries re-keyed by the io register
bitstring. -/
def postselectOne (e : ExpResult) : ExpResult :=
  { header :=
      { creg_sizes := e.header.creg_sizes.take 1
        clbit_labels := e.header.clbit_labels.dropLast
        memory_slots := e.header.memory_slots - 1 }
    counts := e.counts.filterMap succEntry }

/-- Shallow embedding of `HHL._tomo_postselect` (hhl.py lines 336-360).
The source first deep-copies the results structure (line 337) and then
mutates only the copy, reading counts from the original; the deep copy is
modelled by value semantics.  Returns the new results together with the
original results as they stand after the call. -/
def tomoPostselect (results : List ExpResult) : List ExpResult × List ExpResult :=
  (results.map postselectOne, results)

/-- An operation of the composed circuit: a gate contributed by one of the
collaborator sub-circuits, or the final measurement of the ancilla qubit
into a classical bit. -/
inductive CircOp (G : Type) where
  | gate (g : G)
  | measureAncilla (anc : ℕ) (bit : ℕ)
  deriving DecidableEq, Repr

/-- The three pluggable engines used by `HHL.construct_circuit`, as pure
build interfaces (spec section 6): the initial-state preparer, the forward
eigenvalue estimation (returning its sub-circuit and output register), the
inverse eigenvalue estimation (taking the forward sub-circuit and its
register wiring), and the reciprocal rotation (returning its sub-circuit
and ancilla qubit).  Registers and qubits are opaque identifiers. -/
structure Engines (G : Type) where
  initStateBuild : ℕ → List G
  eigsBuild : ℕ → List G × ℕ
  eigsInverse : List G → ℕ → ℕ → List G
  reciprocalBuild : ℕ → List G × ℕ

/-- The bookkeeping fields written by `HHL.construct_circuit` (hhl.py
lines 266-271): io register, eigenvalue register, ancilla, success bit and
the stored circuit. -/
structure ComposeState (G : Type) where
  ioRegister : Option ℕ
  eigenvalueRegister : Option ℕ
  ancillaRegister : Option ℕ
  successBit : Option ℕ
  circuit : Option (List (CircOp G))

/-- Shallow embedding of `HHL.construct_circuit` (hhl.py lines 231-272):
allocate the io register, append the initial-state sub-circuit, the
forward eigenvalue-estimation sub-circuit, the reciprocal sub-circuit on
the eigenvalue register, and the inverse eigenvalue estimation built from
the SAME forward sub-circuit and register wiring; optionally measure the
ancilla into a fresh one-bit classical register.  The incoming compose
state is only written, never read, exactly as in the source (the method
reads only the configured fields). -/
def constructCircuit {G : Type} (E : Engines G) (numQ : ℕ)
    (measurement : Bool) (_st : ComposeState G) :
    List (CircOp G) × ComposeState G :=
  let q := numQ
  let initC := E.initStateBuild q
  let ea := E.eigsBuild q
  let eigC := ea.1
  let a := ea.2
  let rs := E.reciprocalBuild a
  let recC := rs.1
  let s := rs.2
  let invC := E.eigsInverse eigC q a
  let ops := (initC ++ eigC ++ recC ++ invC).map CircOp.gate
  let ops := if measurement then ops ++ [CircOp.measureAncilla s 0] else ops
  (ops,
   { ioRegister := some q
     eigenvalueRegister := some a
     ancillaRegister := some s
     successBit := if measurement then some 0 else none
     circuit := some ops })

/-- A matrix of zeros (concrete instance data). -/
def zeroMatQ : ℕ → ℕ → GQ := fun _ _ => 0

/-- A vector of zeros (concrete instance data). -/
def zeroVecQ : ℕ → GQ := fun _ => 0

/-- The matrix whose entries all equal the imaginary unit; its 1×1 leading
block `[[i]]` is not Hermitian (concrete instance data). -/
def iMatQ : ℕ → ℕ → GQ := fun _ _ => ⟨0, 1⟩

/-- The identity matrix pattern (concrete instance data). -/
def idMatQ : ℕ → ℕ → GQ := fun i j => if i = j then 1 else 0

/-- The all-ones vector (concrete instance data). -/
def oneVecQ : ℕ → GQ := fun _ => 1

/-- The vector `(i, 0, 0, ...)` with the imaginary unit first (concrete
instance data). -/
def imVecQ : ℕ → GQ := fun i => if i = 0 then ⟨0, 1⟩ else 0

/-- A concrete two-basis count table: ancilla bit `1` with 3 shots in one
key, ancilla bit `0` with 2 shots in another (concrete instance data). -/
def countsEx : List (List Char × ℕ) :=
  [(['1', ' ', '0'], 3), (['0', ' ', '1'], 2)]

/-- Conjugation is an involution on exact complex scalars. -/
theorem GQ.conj_conj (z : GQ) : GQ.conj (GQ.conj z) = z := by
  cases z with
  | mk re im => simp [GQ.conj]

/-- Conjugation fixes zero. -/
theorem GQ.conj_zero : GQ.conj 0 = 0 := by
  show GQ.conj ⟨0, 0⟩ = ⟨0, 0⟩
  simp [GQ.conj]

/-- `np.isclose a a` always holds: the squared distance is zero and the
threshold is strictly positive. -/
theorem closeQ_refl (a : GQ) : closeQ a a = true := by
  simp only [closeQ]
  split
  · rfl
  · rename_i hc
    exfalso
    apply hc
    have h1 : (0:ℚ) ≤ a.re ^ 2 + a.im ^ 2 := by positivity
    have h2 : (0:ℚ) < atolQ ^ 2 := by norm_num [atolQ]
    have h3 : (0:ℚ) ≤ rtolQ ^ 2 * (a.re ^ 2 + a.im ^ 2) := by positivity
    nlinarith

/-- A matrix that is exactly Hermitian on its `r × r` range passes the
`np.allclose` Hermitian test. -/
theorem hermAllClose_of_exact (r : ℕ) (A : ℕ → ℕ → GQ)
    (h : ∀ i, i < r → ∀ j, j < r → A i j = GQ.conj (A j i)) :
    hermAllClose r A = true := by
  unfold hermAllClose
  rw [List.all_eq_true]
  intro i hi
  rw [List.all_eq_true]
  intro j hj
  rw [h i (List.mem_range.mp hi) j (List.mem_range.mp hj)]
  exact closeQ_refl _

/-- C7: the matrix produced by the `auto_hermitian` expansion equals its
conjugate transpose entrywise and exactly, for every input matrix (hence in
particular for every non-Hermitian one): the top-right block `A` and the
bottom-left block `Aᴴ` are mutual conjugate transposes and the diagonal
blocks are zero. -/
theorem hhl_c7_exact_hermitian (r : ℕ) (A : ℕ → ℕ → GQ) (i j : ℕ) :
    hermExpand r A i j = GQ.conj (hermExpand r A j i) := by
  unfold hermExpand
  split_ifs <;> first
    | rfl
    | (exfalso; omega)
    | rw [GQ.conj_conj]

/-- C8: for an exactly Hermitian matrix whose dimension is already a power
of two, `init_params` succeeds for every setting of the `auto_hermitian`
and `auto_resize` flags and returns the matrix and vector unchanged: both
expansion branches are skipped, the re-validations pass, and the recorded
original dimension is the input dimension. -/
theorem hhl_c8_noop (r : ℕ) (A : ℕ → ℕ → GQ) (b : ℕ → GQ) (autoH autoR : Bool)
    (hH : ∀ i, i < r → ∀ j, j < r → A i j = GQ.conj (A j i))
    (hP : isPow2 r = true) :
    initParams r r A r b autoH autoR = Except.ok ⟨r, A, b, r⟩ := by
  have hherm : hermAllClose r A = true := hermAllClose_of_exact r A hH
  have hexp : expandStep r A b autoH autoR = (r, A, b) := by
    simp [expandStep, hherm, hP]
  simp [initParams, hexp, hherm, hP]

/-- Witness for C8 at the 2×2 identity matrix with the all-ones vector and
both flags enabled. -/
theorem hhl_c8_noop_witness :
    initParams 2 2 idMatQ 2 oneVecQ true true = Except.ok ⟨2, idMatQ, oneVecQ, 2⟩ :=
  hhl_c8_noop 2 idMatQ oneVecQ true true (by with_unfolding_all decide) (by decide)

/-- C3: `init_params` fails with `DimensionMismatch` whenever the vector
length differs from the matrix row count; with the row count matching, it
fails with `NonSquareMatrix` whenever the matrix is not square; once both
input validations pass, and after the (flag-dependent) expansion step has
produced the final matrix, it fails with `NotHermitian` whenever that
matrix fails the tolerance Hermitian test, and with `InvalidDimension`
whenever it passes the Hermitian test but its dimension is not a power of
two — the two re-validations firing for every setting of the
`auto_hermitian`/`auto_resize` flags.  All failures are values of the
synchronous `Except` result of `initParams`. -/
theorem hhl_c3_errors (r c m : ℕ) (A : ℕ → ℕ → GQ) (b : ℕ → GQ)
    (autoH autoR : Bool) :
    (r ≠ m → initParams r c A m b autoH autoR =
      Except.error ConfigError.DimensionMismatch)
    ∧ (r = m → r ≠ c → initParams r c A m b autoH autoR =
      Except.error ConfigError.NonSquareMatrix)
    ∧ (r = m → r = c →
        hermAllClose (expandStep r A b autoH autoR).1
          (expandStep r A b autoH autoR).2.1 = false →
        initParams r c A m b autoH autoR =
          Except.error ConfigError.NotHermitian)
    ∧ (r = m → r = c →
        hermAllClose (expandStep r A b autoH autoR).1
          (expandStep r A b autoH autoR).2.1 = true →
        isPow2 (expandStep r A b autoH autoR).1 = false →
        initParams r c A m b autoH autoR =
          Except.error ConfigError.InvalidDimension) := by
  refine ⟨?_, ?_, ?_, ?_⟩
  · intro h
    simp [initParams, h]
  · intro hm hc
    subst hm
    simp [initParams, hc]
  · intro hm hc hherm
    subst hm
    subst hc
    simp [initParams, hherm]
  · intro hm hc hherm hpow
    subst hm
    subst hc
    simp [initParams, hherm, hpow]

/-- Witness for C3: each of the four failure modes at a concrete input —
a 2×2 matrix with a length-3 vector, a 2×3 matrix, the non-Hermitian 1×1
matrix `[[i]]` with `auto_hermitian` disabled, and the 3×3 identity with
`auto_resize` disabled. -/
theorem hhl_c3_errors_witness :
    initParams 2 2 zeroMatQ 3 zeroVecQ false false =
      Except.error ConfigError.DimensionMismatch
    ∧ initParams 2 3 zeroMatQ 2 zeroVecQ false false =
      Except.error ConfigError.NonSquareMatrix
    ∧ initParams 1 1 iMatQ 1 oneVecQ false false =
      Except.error ConfigError.NotHermitian
    ∧ initParams 3 3 idMatQ 3 oneVecQ false false =
      Except.error ConfigError.InvalidDimension :=
  ⟨(hhl_c3_errors 2 2 3 zeroMatQ zeroVecQ false false).1 (by decide),
   (hhl_c3_errors 2 3 2 zeroMatQ zeroVecQ false false).2.1 rfl (by decide),
   (hhl_c3_errors 1 1 1 iMatQ oneVecQ false false).2.2.1 rfl rfl
     (by with_unfolding_all decide),
   (hhl_c3_errors 3 3 3 idMatQ oneVecQ false false).2.2.2 rfl rfl
     (by with_unfolding_all decide) (by with_unfolding_all decide)⟩

/-- C1 (code bug): on the non-Hermitian 1×1 input `A = [[i]]`, `b = [1]`
with `auto_hermitian` enabled, the code produces the doubled matrix
`[[0, i], [-i, 0]]` — i.e. it places `A` itself in the TOP-RIGHT block
(hhl.py line 175) and `Aᴴ` in the bottom-left block (line 176), while the
claim (and the code's own comment on line 170) put `Aᴴ` top-right and `A`
bottom-left.  The vector does become `concat(conj(b), b) = [1, 1]` and the
dimension does double to 2 as claimed. -/
theorem hhl_c1_block_placement :
    cfgIsOk (initParams 1 1 iMatQ 1 oneVecQ true false) = true
    ∧ cfgDim (initParams 1 1 iMatQ 1 oneVecQ true false) = 2
    ∧ cfgOrig (initParams 1 1 iMatQ 1 oneVecQ true false) = 1
    ∧ cfgMat (initParams 1 1 iMatQ 1 oneVecQ true false) 0 0 = 0
    ∧ cfgMat (initParams 1 1 iMatQ 1 oneVecQ true false) 0 1 = ⟨0, 1⟩
    ∧ cfgMat (initParams 1 1 iMatQ 1 oneVecQ true false) 1 0 = ⟨0, -1⟩
    ∧ cfgMat (initParams 1 1 iMatQ 1 oneVecQ true false) 1 1 = 0
    ∧ cfgVec (initParams 1 1 iMatQ 1 oneVecQ true false) 0 = 1
    ∧ cfgVec (initParams 1 1 iMatQ 1 oneVecQ true false) 1 = 1
    ∧ GQ.conj (iMatQ 0 0) = ⟨0, -1⟩
    ∧ (⟨0, 1⟩ : GQ) ≠ GQ.conj (iMatQ 0 0) := by
  with_unfolding_all decide

/-- C6 (code bug): resizing the 3×3 identity with the vector
`b = [i, 0, 0]` embeds the matrix into the 4×4 identity exactly as claimed,
but the padded vector comes out as `[0, 0, 0, 0]`: the float64 buffer of
hhl.py line 192 (no `dtype=complex`, unlike line 189 for the matrix and
line 179 in the hermitian branch) discards the imaginary part of every
entry, so the first 3 entries do not equal the original vector. -/
theorem hhl_c6_resize_drops_imag :
    cfgIsOk (initParams 3 3 idMatQ 3 imVecQ false true) = true
    ∧ cfgDim (initParams 3 3 idMatQ 3 imVecQ false true) = 4
    ∧ cfgOrig (initParams 3 3 idMatQ 3 imVecQ false true) = 3
    ∧ cfgVec (initParams 3 3 idMatQ 3 imVecQ false true) 0 = 0
    ∧ cfgVec (initParams 3 3 idMatQ 3 imVecQ false true) 1 = 0
    ∧ cfgVec (initParams 3 3 idMatQ 3 imVecQ false true) 3 = 0
    ∧ cfgMat (initParams 3 3 idMatQ 3 imVecQ false true) 0 0 = 1
    ∧ cfgMat (initParams 3 3 idMatQ 3 imVecQ false true) 2 2 = 1
    ∧ cfgMat (initParams 3 3 idMatQ 3 imVecQ false true) 3 3 = 1
    ∧ cfgMat (initParams 3 3 idMatQ 3 imVecQ false true) 0 3 = 0
    ∧ imVecQ 0 = ⟨0, 1⟩
    ∧ (⟨0, 1⟩ : GQ) ≠ 0 := by
  with_unfolding_all decide

/-- Multiplication of exact complex scalars is commutative. -/
theorem GQ.mul_comm (a b : GQ) : a * b = b * a := by
  show GQ.mk (a.re * b.re - a.im * b.im) (a.re * b.im + a.im * b.re)
      = GQ.mk (b.re * a.re - b.im * a.im) (b.re * a.im + b.im * a.re)
  simp only [GQ.mk.injEq]
  constructor <;> ring

/-- C2: the embedded `_hhl_results` computes exactly the rescaling formula
displayed in the specification — `probe = matrix · decoded_vector`,
`f1 = norm(vector)/norm(probe)`,
`f2 = sum_i angle(vector_i · conj(probe_i) - 1 + 1) / log2(matrix_dimension)`,
`solution = f1 · decoded_vector · exp(-i·f2)` — with matrix, vector and
decoded vector all truncated to the original dimension `d`, the `-1+1` term
present verbatim on both sides, and the `log2(matrix_dimension)` divisor
(`matrix_dimension = d` after truncation) reproduced verbatim; the identity
holds for every interpretation of the transcendental numpy functions. -/
theorem hhl_c2_rescale (ops : RealOps) (d : ℕ) (A : ℕ → ℕ → GQ)
    (bvec vec : ℕ → GQ) :
    hhlResults ops d A bvec vec = specRescale ops d A bvec vec := by
  simp only [hhlResults, specRescale, resizeVec]
  rw [List.zip_map']
  simp only [List.map_map]
  rfl

/-- C5: in the statevector strategy, `probability_result` is the real part
of the inner product of the decoded vector truncated to the original
dimension with itself, computed BEFORE any normalization, and the vector
handed to the shared rescaling is the full decoded vector divided by its
norm (over all `n = 2^num_q` entries). -/
theorem hhl_c5_statevector (ops : RealOps) (n d : ℕ) (A : ℕ → ℕ → GQ)
    (bvec vec : ℕ → GQ) :
    (statevectorSimulation ops n d A bvec vec).1
      = (((List.range d).map fun i => GQ.conj (vec i) * vec i).sum).re
    ∧ (statevectorSimulation ops n d A bvec vec).2
      = hhlResults ops d A bvec
          (fun i => (vec i).divR (ops.normOp (resizeVec n vec))) := by
  constructor
  · show (((List.range d).map fun i => vec i * GQ.conj (vec i)).sum).re = _
    have h : (fun i => vec i * GQ.conj (vec i))
        = (fun i => GQ.conj (vec i) * vec i) := by
      funext i
      exact GQ.mul_comm _ _
    rw [h]
  · rfl

/-- The success/failure totals accumulated by the count-partition fold grow
the initial accumulator by exactly the total of the processed counts. -/
theorem tomoPartition_fold (l : List (List Char × ℕ)) :
    ∀ s f : ℕ, (l.foldl tomoStep (s, f)).1 + (l.foldl tomoStep (s, f)).2
      = s + f + (l.map Prod.snd).sum := by
  induction l with
  | nil =>
    intro s f
    simp
  | cons hd tl ih =>
    intro s f
    simp only [List.foldl_cons, List.map_cons, List.sum_cons]
    by_cases h : hd.1.headD ' ' = '1'
    · rw [show tomoStep (s, f) hd = (s + hd.2, f) from by
        unfold tomoStep
        rw [if_pos h]]
      rw [ih]
      omega
    · rw [show tomoStep (s, f) hd = (s, f + hd.2) from by
        unfold tomoStep
        rw [if_neg h]]
      rw [ih]
      omega

/-- C4: partitioning a per-basis measurement count table by the ancilla
bit yields success and failure totals whose sum equals the total of the
original counts (entries are natural numbers, hence non-negative), and
when at least one count is present the reported success fraction
`s / (f + s)` — written exactly as in hhl.py line 324 — lies in `[0, 1]`. -/
theorem hhl_c4_partition (counts : List (List Char × ℕ)) :
    (tomoPartition counts).1 + (tomoPartition counts).2
      = (counts.map Prod.snd).sum
    ∧ (0 < (counts.map Prod.snd).sum →
        (0:ℚ) ≤ ((tomoPartition counts).1 : ℚ)
            / (((tomoPartition counts).2 : ℚ) + ((tomoPartition counts).1 : ℚ))
        ∧ ((tomoPartition counts).1 : ℚ)
            / (((tomoPartition counts).2 : ℚ) + ((tomoPartition counts).1 : ℚ))
          ≤ 1) := by
  have hsum : (tomoPartition counts).1 + (tomoPartition counts).2
      = (counts.map Prod.snd).sum := by
    have h := tomoPartition_fold counts 0 0
    simpa [tomoPartition] using h
  refine ⟨hsum, ?_⟩
  intro hpos
  have hden : (0:ℚ) < ((tomoPartition counts).2 : ℚ)
      + ((tomoPartition counts).1 : ℚ) := by
    have h : 0 < (tomoPartition counts).2 + (tomoPartition counts).1 := by omega
    exact_mod_cast h
  constructor
  · apply div_nonneg _ (le_of_lt hden)
    exact_mod_cast Nat.zero_le _
  · rw [div_le_one hden]
    have h : (tomoPartition counts).1
        ≤ (tomoPartition counts).2 + (tomoPartition counts).1 := by omega
    exact_mod_cast h

/-- Witness for C4 at a concrete two-row count table with 3 success shots
and 2 failure shots. -/
theorem hhl_c4_partition_witness :
    0 < (countsEx.map Prod.snd).sum
    ∧ ((0:ℚ) ≤ ((tomoPartition countsEx).1 : ℚ)
          / (((tomoPartition countsEx).2 : ℚ) + ((tomoPartition countsEx).1 : ℚ))
       ∧ ((tomoPartition countsEx).1 : ℚ)
          / (((tomoPartition countsEx).2 : ℚ) + ((tomoPartition countsEx).1 : ℚ))
         ≤ 1) :=
  ⟨by decide, (hhl_c4_partition countsEx).2 (by decide)⟩

/-- C9: circuit composition is deterministic and introduces no randomness:
the gate sequence produced by `construct_circuit` is a pure function of the
configured engines, register size and measurement flag alone — it does not
depend on the incoming compose state, so any two calls with identical
configured inputs (in particular a repeated call after a first one) yield
gate-identical circuits. -/
theorem hhl_c9_deterministic {G : Type} (E : Engines G) (numQ : ℕ)
    (measurement : Bool) (st st' : ComposeState G) :
    (constructCircuit E numQ measurement st).1
      = (constructCircuit E numQ measurement st').1 := rfl

/-- C10: postselection builds a NEW results record — per experiment the
counts keep exactly the success-branch entries re-keyed by the io-register
bitstring alone, and the classical-register metadata loses one classical
bit (only the first register size survives, the last classical bit label
is dropped, the memory slot count decreases by one) — while the input
record, deep-copied by the source before any mutation, is returned to the
caller unchanged. -/
theorem hhl_c10_postselect (rs : List ExpResult) (e : ExpResult) :
    (tomoPostselect rs).2 = rs
    ∧ (tomoPostselect rs).1 = rs.map postselectOne
    ∧ (postselectOne e).counts = e.counts.filterMap succEntry
    ∧ (postselectOne e).header.creg_sizes = e.header.creg_sizes.take 1
    ∧ (postselectOne e).header.clbit_labels = e.header.clbit_labels.dropLast
    ∧ (postselectOne e).header.memory_slots = e.header.memory_slots - 1 :=
  ⟨rfl, rfl, rfl, rfl, rfl, rfl⟩
